import Mathlib

/-!
# Lucky3 seed simulation: a shallow embedding

This file embeds the core of the Lucky3 simulator (`tools/simulate_seeds.py`)
and of the seed-pool builder (`tools/build_seed_pool.py`) as executable Lean
definitions, and proves the specified properties about them.

Modelling conventions:
* Card values and counters are `Nat`; the step cap `max_steps` is `Int`
  (Python integers may be negative).
* The Python deck draws with `deck.pop()`, i.e. from the *tail* of the list;
  this is modelled with `List.getLastD` / `List.dropLast`.
* The seeded random source is modelled as injected functions: a `shuffle`
  function for `random.Random.shuffle` (assumed to permute its input where a
  theorem needs it) and a `pick` function for the move policy
  (`rng.choice(moves)` for the random policy, `moves[0]` for the
  deterministic one, which is `pickHead` below).
* The simulation loop runs on fuel `max_steps.toNat + 1`; the fuel-exhausted
  branch replicates the timeout outcome and is unreachable for that fuel
  value because the step counter grows by one per iteration.
-/

namespace Lucky3

/-- An index triple into a column, as produced by the clear-rule evaluator. -/
abbrev Triple := Nat × Nat × Nat

/-- A legal move: a column id together with an index triple. -/
abbrev Move := Nat × Triple

/-- `TARGET_SUMS = (9, 19, 29)`. -/
def TARGET_SUMS : List Nat := [9, 19, 29]

/-- The 40 card values before shuffling: 4 copies of each value 1..10, in the
order Python builds them (`values.extend([v] * 4)` for `v` in `range(1, 11)`). -/
def baseValues : List Nat :=
  (List.range 10).flatMap (fun v => List.replicate 4 (v + 1))

/-- Deck generation mode: `forced3` (default) or `full-random`. -/
inductive DeckMode where
  | forced3
  | fullRandom
deriving DecidableEq, Repr

/-- `build_deck`: in `full-random` mode shuffle all 40 values; in `forced3`
mode remove one `3` (first occurrence, as `list.remove`), shuffle the
remaining 39 and put the forced `3` at index 0, the end opposite the draw
end. -/
def build_deck (shuffle : List Nat → List Nat) (deck_mode : DeckMode) : List Nat :=
  match deck_mode with
  | .fullRandom => shuffle baseValues
  | .forced3 => 3 :: shuffle (baseValues.erase 3)

/-- One round of the opening deal: append one card drawn from the deck's tail
to each column in order, stopping (and leaving later columns untouched) if the
deck runs out. -/
def dealRound : List Nat → List (List Nat) → List Nat × List (List Nat)
  | deck, [] => (deck, [])
  | [], c :: cs => ([], c :: cs)
  | d :: ds, c :: cs =>
    let r := dealRound (d :: ds).dropLast cs
    (r.1, (c ++ [(d :: ds).getLastD 0]) :: r.2)

/-- `opening_deal`: deal `cards_per_col` rounds, one card per column per
round.  Python's early `return` on an empty deck is reproduced by `dealRound`
leaving columns unchanged once the deck is empty. -/
def opening_deal (deck : List Nat) (cols : List (List Nat)) :
    Nat → List Nat × List (List Nat)
  | 0 => (deck, cols)
  | n + 1 =>
    let r := dealRound deck cols
    opening_deal r.1 r.2 n

/-- `tuple(sorted(c))` for a 3-tuple, as a three-comparator sorting network. -/
def sort3 (t : Triple) : Triple :=
  let p1 := if t.1 ≤ t.2.1 then (t.1, t.2.1) else (t.2.1, t.1)
  let p2 := if p1.2 ≤ t.2.2 then (p1.2, t.2.2) else (t.2.2, p1.2)
  let p3 := if p1.1 ≤ p2.1 then (p1.1, p2.1) else (p2.1, p1.1)
  (p3.1, p3.2, p2.2)

/-- `col[c[0]] + col[c[1]] + col[c[2]]`.  The indices produced by the
evaluator are always within bounds, so the `getD` default is never read. -/
def sumTriple (col : List Nat) (t : Triple) : Nat :=
  col.getD t.1 0 + col.getD t.2.1 0 + col.getD t.2.2 0

/-- The candidate index templates for a column of length `L`, in the order
the code lists them: head1tail2, head2tail1, tail3. -/
def clearCandidates (L : Nat) : List Triple :=
  [(0, L - 2, L - 1), (0, 1, L - 1), (L - 3, L - 2, L - 1)]

/-- The candidate loop of `legal_clear_moves_for_col`: sort each candidate,
skip index sets already seen, and keep those whose value sum is a target sum,
preserving evaluation order. -/
def dedupEval (col : List Nat) : List Triple → List Triple → List Triple
  | [], _ => []
  | c :: cs, seen =>
    let c' := sort3 c
    if c' ∈ seen then dedupEval col cs seen
    else if sumTriple col c' ∈ TARGET_SUMS then c' :: dedupEval col cs (c' :: seen)
    else dedupEval col cs (c' :: seen)

/-- `legal_clear_moves_for_col`. -/
def legal_clear_moves_for_col (col : List Nat) : List Triple :=
  if col.length < 3 then []
  else dedupEval col (clearCandidates col.length) []

/-- The flattened move list built by `simulate_game` before picking: for each
active column id 0..3 in order, all its legal clears tagged with the id. -/
def movesFor (cols : List (List Nat)) (active : List Bool) : List Move :=
  (List.range 4).flatMap (fun sid =>
    if active.getD sid false then
      (legal_clear_moves_for_col (cols.getD sid [])).map (fun idxs => (sid, idxs))
    else [])

/-- `recycle`: rebuild the deck by extending an emptied deck with the cleared
groups in reverse chronological order, then empty the history. -/
def recycle (deck : List Nat) (cleared_groups : List (List Nat)) :
    List Nat × List (List Nat) :=
  (cleared_groups.reverse.foldl (fun d g => d ++ g) [], [])

/-- Terminal outcome kinds. -/
inductive OutcomeKind where
  | lucky3
  | zeroClear
  | deadlock
  | cycle
  | timeout
deriving DecidableEq, Repr

/-- The `Outcome` dataclass. -/
structure Outcome where
  kind : OutcomeKind
  steps : Nat
  deals : Nat
  clears : Nat
  recycles : Nat
  remaining_board : Nat
  remaining_deck : Nat
  remaining_recycle_groups : Nat
deriving DecidableEq, Repr

/-- The tuple hashed for cycle detection: deck, columns, active flags, deal
cursor, cleared groups. -/
abbrev StateKey := List Nat × List (List Nat) × List Bool × Nat × List (List Nat)

/-- The mutable state of one game inside `simulate_game`'s loop. -/
structure SimState where
  deck : List Nat
  cols : List (List Nat)
  active : List Bool
  next_idx : Nat
  cleared_groups : List (List Nat)
  steps : Nat
  deals : Nat
  clears : Nat
  recycles : Nat
  seen : List StateKey
deriving DecidableEq, Repr

/-- `sum(len(c) for c in cols)`. -/
def boardTotal (cols : List (List Nat)) : Nat :=
  (cols.map List.length).sum

/-- The cycle-detection key of a state. -/
def stateKey (s : SimState) : StateKey :=
  (s.deck, s.cols, s.active, s.next_idx, s.cleared_groups)

/-- An outcome whose remaining-card fields are read off the current state. -/
def mkOutcome (k : OutcomeKind) (s : SimState) : Outcome :=
  ⟨k, s.steps, s.deals, s.clears, s.recycles,
    boardTotal s.cols, s.deck.length, s.cleared_groups.length⟩

/-- Clear execution on one column: read the group at the given indices in the
stored (ascending) order, then remove the three cards from highest index to
lowest (`sorted(idxs, reverse=True)`). -/
def applyClear (col : List Nat) (idxs : Triple) : List Nat × List Nat :=
  let group := [col.getD idxs.1 0, col.getD idxs.2.1 0, col.getD idxs.2.2 0]
  let d := sort3 idxs
  (((col.eraseIdx d.2.2).eraseIdx d.2.1).eraseIdx d.1, group)

/-- Round-robin scan for the first active column starting at the deal
cursor. -/
def findTarget (active : List Bool) (next_idx : Nat) : Option Nat :=
  (List.range 4).findSome? (fun off =>
    let cand := (next_idx + off) % 4
    if active.getD cand false then some cand else none)

/-- The non-terminal part of one loop iteration: attempt a clear, else
recycle, else deadlock, else deal one card. -/
def moveOrDeal (pick : List Move → Move) (s : SimState) : Sum Outcome SimState :=
  match movesFor s.cols s.active with
  | m :: rest =>
    let mv := pick (m :: rest)
    let col := s.cols.getD mv.1 []
    let r := applyClear col mv.2
    .inr { s with
      cols := s.cols.set mv.1 r.1,
      active := if r.1.length = 0 then s.active.set mv.1 false else s.active,
      cleared_groups := s.cleared_groups ++ [r.2],
      clears := s.clears + 1 }
  | [] =>
    if s.deck = [] ∧ s.cleared_groups ≠ [] then
      let r := recycle s.deck s.cleared_groups
      .inr { s with deck := r.1, cleared_groups := r.2, recycles := s.recycles + 1 }
    else if s.deck = [] then
      .inl ⟨.deadlock, s.steps, s.deals, s.clears, s.recycles, boardTotal s.cols, 0, 0⟩
    else
      match findTarget s.active s.next_idx with
      | none => .inl (mkOutcome .deadlock s)
      | some target =>
        .inr { s with
          deck := s.deck.dropLast,
          cols := s.cols.set target ((s.cols.getD target []) ++ [s.deck.getLastD 0]),
          deals := s.deals + 1,
          next_idx := (target + 1) % 4 }

/-- One iteration of `simulate_game`'s `while True` loop: bump the step
counter, then check timeout, cycle, zero-clear and lucky3 in order, and
otherwise clear / recycle / deal / deadlock. -/
def stepGame (max_steps : Int) (detect_cycle : Bool) (pick : List Move → Move)
    (s0 : SimState) : Sum Outcome SimState :=
  let s := { s0 with steps := s0.steps + 1 }
  if (s.steps : Int) > max_steps then
    .inl (mkOutcome .timeout s)
  else if detect_cycle = true ∧ stateKey s ∈ s.seen then
    .inl (mkOutcome .cycle s)
  else
    let s1 := if detect_cycle then { s with seen := stateKey s :: s.seen } else s
    if boardTotal s1.cols = 0 then
      .inl ⟨.zeroClear, s1.steps, s1.deals, s1.clears, s1.recycles,
        0, s1.deck.length, s1.cleared_groups.length⟩
    else if boardTotal s1.cols = 1 ∧ s1.cols.flatten.head? = some 3 then
      .inl ⟨.lucky3, s1.steps, s1.deals, s1.clears, s1.recycles,
        1, s1.deck.length, s1.cleared_groups.length⟩
    else
      moveOrDeal pick s1

/-- The deterministic move policy: `moves[0]`. -/
def pickHead (moves : List Move) : Move :=
  moves.headD (0, 0, 0, 0)

/-- The loop, driven by fuel.  With fuel `max_steps.toNat + 1` the fuel-zero
fallback (which replicates the timeout branch) is never reached, because each
iteration increases the step counter by one. -/
def runLoop (max_steps : Int) (detect_cycle : Bool) (pick : List Move → Move) :
    Nat → SimState → Outcome
  | 0, s => mkOutcome .timeout { s with steps := s.steps + 1 }
  | fuel + 1, s =>
    match stepGame max_steps detect_cycle pick s with
    | .inl o => o
    | .inr s' => runLoop max_steps detect_cycle pick fuel s'

/-- The state of a game right after `build_deck` and the opening deal. -/
def initState (shuffle : List Nat → List Nat) (deck_mode : DeckMode) : SimState :=
  let deck := build_deck shuffle deck_mode
  let r := opening_deal deck [[], [], [], []] 3
  { deck := r.1, cols := r.2, active := [true, true, true, true], next_idx := 0,
    cleared_groups := [], steps := 0, deals := 0, clears := 0, recycles := 0,
    seen := [] }

/-- `simulate_game`, with the random source abstracted into `shuffle` and
`pick`. -/
def simulate_game (shuffle : List Nat → List Nat) (pick : List Move → Move)
    (deck_mode : DeckMode) (max_steps : Int) (detect_cycle : Bool) : Outcome :=
  runLoop max_steps detect_cycle pick (max_steps.toNat + 1)
    (initState shuffle deck_mode)

/-- Total number of card values held by a game state: deck, board and
un-recycled cleared groups. -/
def cardTotal (s : SimState) : Nat :=
  s.deck.length + boardTotal s.cols + (s.cleared_groups.map List.length).sum

/-- The single-step transition relation of the loop (the `continue` cases). -/
def stepsTo (max_steps : Int) (detect_cycle : Bool) (pick : List Move → Move)
    (s s' : SimState) : Prop :=
  stepGame max_steps detect_cycle pick s = Sum.inr s'

/-- Reachability inside one run of the loop. -/
def ReachableFrom (max_steps : Int) (detect_cycle : Bool)
    (pick : List Move → Move) (s0 s : SimState) : Prop :=
  Relation.ReflTransGen (stepsTo max_steps detect_cycle pick) s0 s

/-- The spec's candidate evaluation order for the deterministic policy,
transcribed from its words: head1tail2 = (0, L−2, L−1), then
head2tail1 = (0, 1, L−1), then tail3 = (L−3, L−2, L−1). -/
def specCandidateOrder (L : Nat) : List Triple :=
  [(0, L - 2, L - 1), (0, 1, L - 1), (L - 3, L - 2, L - 1)]

/-- The spec's description of the first legal clear within one column: the
first candidate, in `specCandidateOrder`, whose value sum is 9, 19 or 29
(no candidates when the column has fewer than 3 cards). -/
def specFirstLegalInCol (col : List Nat) : Option Triple :=
  if col.length < 3 then none
  else (specCandidateOrder col.length).find?
    (fun c => decide (sumTriple col c ∈ TARGET_SUMS))

/-- The spec's description of the deterministic policy's choice: scan columns
in order 0,1,2,3, keeping only active ones, and take the first column's first
legal candidate. -/
def specFirstClear (cols : List (List Nat)) (active : List Bool) : Option Move :=
  ((List.range 4).filter (fun sid => active.getD sid false)).findSome?
    (fun sid => (specFirstLegalInCol (cols.getD sid [])).map (fun c => (sid, c)))

/-- The structured content of the `RuntimeError` raised by `build_pool` when
the seed search is exhausted: the attempt count and the partial progress
(counts obtained so far against their targets). -/
structure PoolFailure where
  attempts : Nat
  gotLucky3 : Nat
  targetLucky3 : Nat
  gotZero : Nat
  targetZero : Nat
deriving DecidableEq, Repr

/-- The seed-search loop of `build_pool`, with `simulate_game` abstracted
into a `classify` oracle (the loop only reads `out.kind`) and the system
random source into a `stream` of seeds indexed by attempt number.  The fuel
argument is the remaining attempt budget `seed_limit - attempts`. -/
def buildPoolLoop (classify : Nat → OutcomeKind) (stream : Nat → Nat)
    (target_lucky3 target_zero : Nat) :
    Nat → Nat → List Nat → List Nat → List Nat → Nat × List Nat × List Nat
  | 0, attempts, _seen, lucky3_seeds, zero_seeds => (attempts, lucky3_seeds, zero_seeds)
  | r + 1, attempts, seen, lucky3_seeds, zero_seeds =>
    if lucky3_seeds.length < target_lucky3 ∨ zero_seeds.length < target_zero then
      let seed := stream attempts
      if seed ∈ seen then
        buildPoolLoop classify stream target_lucky3 target_zero r
          (attempts + 1) seen lucky3_seeds zero_seeds
      else if classify seed = .lucky3 ∧ lucky3_seeds.length < target_lucky3 then
        buildPoolLoop classify stream target_lucky3 target_zero r
          (attempts + 1) (seed :: seen) (lucky3_seeds ++ [seed]) zero_seeds
      else if classify seed = .zeroClear ∧ zero_seeds.length < target_zero then
        buildPoolLoop classify stream target_lucky3 target_zero r
          (attempts + 1) (seed :: seen) lucky3_seeds (zero_seeds ++ [seed])
      else
        buildPoolLoop classify stream target_lucky3 target_zero r
          (attempts + 1) (seed :: seen) lucky3_seeds zero_seeds
    else (attempts, lucky3_seeds, zero_seeds)

/-- `build_pool`, at the granularity the claim needs: run the bounded seed
search; if either target is unmet, fail with the partial progress, else
return the two seed lists. -/
def build_pool (classify : Nat → OutcomeKind) (stream : Nat → Nat)
    (target_lucky3 target_zero seed_limit : Nat) :
    Except PoolFailure (List Nat × List Nat) :=
  let r := buildPoolLoop classify stream target_lucky3 target_zero seed_limit 0 [] [] []
  if r.2.1.length < target_lucky3 ∨ r.2.2.length < target_zero then
    .error ⟨r.1, r.2.1.length, target_lucky3, r.2.2.length, target_zero⟩
  else .ok (r.2.1, r.2.2)

/-! ## Clear-rule evaluator lemmas -/

theorem sort3_of_sorted {a b c : Nat} (h1 : a ≤ b) (h2 : b ≤ c) :
    sort3 (a, b, c) = (a, b, c) := by
  simp [sort3, h1, h2, h1.trans h2]

theorem clearCandidates_add_three (n : Nat) :
    clearCandidates (n + 3) = [(0, n + 1, n + 2), (0, 1, n + 2), (n, n + 1, n + 2)] := by
  simp only [clearCandidates, Nat.add_sub_cancel, show n + 3 - 2 = n + 1 by omega,
    show n + 3 - 1 = n + 2 by omega, show n + 3 - 3 = n by omega]

theorem sort3_clearCandidates {n : Nat} {c : Triple}
    (hc : c ∈ clearCandidates (n + 3)) : sort3 c = c := by
  rw [clearCandidates_add_three] at hc
  simp only [List.mem_cons, List.mem_singleton, List.not_mem_nil, or_false] at hc
  rcases hc with rfl | rfl | rfl
  · exact sort3_of_sorted (Nat.zero_le _) (by omega)
  · exact sort3_of_sorted (by omega) (by omega)
  · exact sort3_of_sorted (by omega) (by omega)

theorem mem_dedupEval {col : List Nat} :
    ∀ {cs seen : List Triple} {m : Triple}, m ∈ dedupEval col cs seen →
      (∃ c ∈ cs, m = sort3 c) ∧ sumTriple col m ∈ TARGET_SUMS := by
  intro cs
  induction cs with
  | nil => intro seen m h; simp [dedupEval] at h
  | cons c cs ih =>
    intro seen m h
    simp only [dedupEval] at h
    split at h
    · obtain ⟨⟨c', hc', hm⟩, hs⟩ := ih h
      exact ⟨⟨c', List.mem_cons_of_mem _ hc', hm⟩, hs⟩
    · split at h
      · rcases List.mem_cons.mp h with rfl | h
        · exact ⟨⟨c, List.mem_cons_self _ _, rfl⟩, by assumption⟩
        · obtain ⟨⟨c', hc', hm⟩, hs⟩ := ih h
          exact ⟨⟨c', List.mem_cons_of_mem _ hc', hm⟩, hs⟩
      · obtain ⟨⟨c', hc', hm⟩, hs⟩ := ih h
        exact ⟨⟨c', List.mem_cons_of_mem _ hc', hm⟩, hs⟩

theorem mem_legal_clear {col : List Nat} {m : Triple}
    (h : m ∈ legal_clear_moves_for_col col) :
    m.1 < m.2.1 ∧ m.2.1 < m.2.2 ∧ m.2.2 < col.length ∧
      sumTriple col m ∈ TARGET_SUMS := by
  unfold legal_clear_moves_for_col at h
  split at h
  · simp at h
  · rename_i hL
    obtain ⟨n, hn⟩ : ∃ n, col.length = n + 3 := ⟨col.length - 3, by omega⟩
    rw [hn] at h
    obtain ⟨⟨c, hc, hm⟩, hs⟩ := mem_dedupEval h
    rw [sort3_clearCandidates hc] at hm
    subst hm
    rw [clearCandidates_add_three] at hc
    simp only [List.mem_cons, List.mem_singleton, List.not_mem_nil, or_false] at hc
    rcases hc with rfl | rfl | rfl <;>
      (refine ⟨?_, ?_, ?_, hs⟩ <;> dsimp only <;> omega)

theorem legal_clear_of_short {col : List Nat} (h : col.length < 3) :
    legal_clear_moves_for_col col = [] := by
  simp [legal_clear_moves_for_col, h]

theorem legal_clear_length_three {col : List Nat} (h : col.length = 3) :
    legal_clear_moves_for_col col = [] ∨
      legal_clear_moves_for_col col = [(0, 1, 2)] := by
  unfold legal_clear_moves_for_col
  rw [h]
  have hc : clearCandidates 3 = [(0, 1, 2), (0, 1, 2), (0, 1, 2)] := by decide
  have hs3 : sort3 (0, 1, 2) = (0, 1, 2) := by decide
  rw [if_neg (by omega), hc]
  by_cases hs : sumTriple col (0, 1, 2) ∈ TARGET_SUMS
  · right; simp [dedupEval, hs3, hs]
  · left; simp [dedupEval, hs3, hs]

/-! ## The deterministic policy picks the first legal move in scan order -/

theorem head?_dedupEval (col : List Nat) :
    ∀ (cs seen : List Triple), (∀ c ∈ cs, sort3 c = c) →
      (∀ c ∈ seen, sumTriple col c ∉ TARGET_SUMS) →
      (dedupEval col cs seen).head? =
        cs.find? (fun c => decide (sumTriple col c ∈ TARGET_SUMS)) := by
  intro cs
  induction cs with
  | nil => intro seen _ _; simp [dedupEval]
  | cons c cs ih =>
    intro seen hsort hseen
    have hc : sort3 c = c := hsort c (List.mem_cons_self _ _)
    simp only [dedupEval, hc]
    by_cases hmem : c ∈ seen
    · rw [if_pos hmem, List.find?_cons_of_neg _ (by simp [hseen c hmem]),
        ih seen (fun d hd => hsort d (List.mem_cons_of_mem _ hd)) hseen]
    · rw [if_neg hmem]
      by_cases hpass : sumTriple col c ∈ TARGET_SUMS
      · rw [if_pos hpass, List.find?_cons_of_pos _ (by simp [hpass])]
        simp
      · rw [if_neg hpass, List.find?_cons_of_neg _ (by simp [hpass]),
          ih (c :: seen) (fun d hd => hsort d (List.mem_cons_of_mem _ hd))]
        intro d hd
        rcases List.mem_cons.mp hd with rfl | hd
        · exact hpass
        · exact hseen d hd

theorem head?_legal_eq_spec (col : List Nat) :
    (legal_clear_moves_for_col col).head? = specFirstLegalInCol col := by
  unfold legal_clear_moves_for_col specFirstLegalInCol
  split
  · simp
  · rename_i hL
    obtain ⟨n, hn⟩ : ∃ n, col.length = n + 3 := ⟨col.length - 3, by omega⟩
    rw [hn]
    rw [head?_dedupEval col _ [] (fun c hc => sort3_clearCandidates hc) (by simp)]
    rfl

theorem head?_flatMap {α β : Type} (l : List α) (f : α → List β) :
    (l.flatMap f).head? = l.findSome? (fun a => (f a).head?) := by
  induction l with
  | nil => rfl
  | cons a l ih =>
    rw [List.flatMap_cons, List.head?_append, List.findSome?_cons, ih]
    cases (f a).head? <;> simp

theorem findSome?_filter {α β : Type} (l : List α) (p : α → Bool) (f : α → Option β) :
    (l.filter p).findSome? f = l.findSome? (fun a => if p a then f a else none) := by
  induction l with
  | nil => rfl
  | cons a l ih =>
    by_cases h : p a <;>
      simp [List.filter_cons, h, List.findSome?_cons, ih]

theorem head?_movesFor (cols : List (List Nat)) (active : List Bool) :
    (movesFor cols active).head? = specFirstClear cols active := by
  unfold movesFor specFirstClear
  rw [head?_flatMap, findSome?_filter]
  congr 1
  funext sid
  split
  · rw [List.head?_map, head?_legal_eq_spec]
  · rfl

/-! ## Card conservation -/

theorem dealRound_conservation (deck : List Nat) (cols : List (List Nat)) :
    (dealRound deck cols).1.length + boardTotal (dealRound deck cols).2 =
      deck.length + boardTotal cols ∧
    (dealRound deck cols).2.length = cols.length := by
  induction cols generalizing deck with
  | nil => simp [dealRound]
  | cons c cs ih =>
    cases deck with
    | nil => simp [dealRound]
    | cons d ds =>
      have h := ih (d :: ds).dropLast
      simp only [dealRound, boardTotal, List.map_cons, List.sum_cons,
        List.length_append, List.length_cons, List.length_nil,
        List.length_dropLast_cons] at h ⊢
      obtain ⟨h1, h2⟩ := h
      exact ⟨by omega, by omega⟩

theorem opening_deal_conservation (deck : List Nat) (cols : List (List Nat)) (n : Nat) :
    (opening_deal deck cols n).1.length + boardTotal (opening_deal deck cols n).2 =
      deck.length + boardTotal cols ∧
    (opening_deal deck cols n).2.length = cols.length := by
  induction n generalizing deck cols with
  | zero => simp [opening_deal]
  | succ n ih =>
    obtain ⟨h1, h2⟩ := dealRound_conservation deck cols
    obtain ⟨h3, h4⟩ := ih (dealRound deck cols).1 (dealRound deck cols).2
    simp only [opening_deal]
    exact ⟨by omega, by omega⟩

theorem build_deck_length (shuffle : List Nat → List Nat)
    (hperm : ∀ l, List.Perm (shuffle l) l) (mode : DeckMode) :
    (build_deck shuffle mode).length = 40 := by
  cases mode with
  | fullRandom =>
    rw [build_deck, (hperm baseValues).length_eq]
    decide
  | forced3 =>
    rw [build_deck, List.length_cons, (hperm (baseValues.erase 3)).length_eq]
    decide

theorem cardTotal_initState (shuffle : List Nat → List Nat)
    (hperm : ∀ l, List.Perm (shuffle l) l) (mode : DeckMode) :
    cardTotal (initState shuffle mode) = 40 ∧
      (initState shuffle mode).cols.length = 4 := by
  have hb := build_deck_length shuffle hperm mode
  obtain ⟨h1, h2⟩ := opening_deal_conservation (build_deck shuffle mode) [[], [], [], []] 3
  have h0 : boardTotal [[], [], [], []] = 0 := rfl
  have h4 : ([[], [], [], []] : List (List Nat)).length = 4 := rfl
  simp only [initState, cardTotal, List.map_nil, List.sum_nil]
  exact ⟨by omega, by omega⟩

theorem boardTotal_set (cols : List (List Nat)) (sid : Nat) (c : List Nat)
    (h : sid < cols.length) :
    boardTotal (cols.set sid c) + (cols.getD sid []).length =
      boardTotal cols + c.length := by
  induction cols generalizing sid with
  | nil => simp at h
  | cons c0 cs ih =>
    cases sid with
    | zero => simp [boardTotal]; omega
    | succ k =>
      have hk := ih k (by simpa using Nat.lt_of_succ_lt_succ h)
      simp only [List.set_cons_succ, boardTotal, List.map_cons, List.sum_cons,
        List.getD_cons_succ] at hk ⊢
      omega

theorem applyClear_lengths {col : List Nat} {t : Triple}
    (h1 : t.1 < t.2.1) (h2 : t.2.1 < t.2.2) (h3 : t.2.2 < col.length) :
    (applyClear col t).1.length = col.length - 3 ∧
      (applyClear col t).2.length = 3 := by
  obtain ⟨i0, i1, i2⟩ := t
  dsimp only at h1 h2 h3
  have hs : sort3 (i0, i1, i2) = (i0, i1, i2) := sort3_of_sorted h1.le h2.le
  have e1 : (col.eraseIdx i2).length = col.length - 1 :=
    List.length_eraseIdx_of_lt h3
  have e2 : ((col.eraseIdx i2).eraseIdx i1).length = col.length - 2 := by
    rw [List.length_eraseIdx_of_lt (by omega : i1 < (col.eraseIdx i2).length)]
    omega
  have e3 : (((col.eraseIdx i2).eraseIdx i1).eraseIdx i0).length = col.length - 3 := by
    rw [List.length_eraseIdx_of_lt
      (by omega : i0 < ((col.eraseIdx i2).eraseIdx i1).length)]
    omega
  simp only [applyClear, hs]
  exact ⟨e3, rfl⟩

theorem foldl_append_eq_flatten (l : List (List Nat)) (acc : List Nat) :
    l.foldl (fun d g => d ++ g) acc = acc ++ l.flatten := by
  induction l generalizing acc with
  | nil => simp
  | cons g gs ih => simp [List.foldl_cons, ih, List.flatten_cons]

theorem recycle_eq (deck : List Nat) (gs : List (List Nat)) :
    recycle deck gs = (gs.reverse.flatten, []) := by
  unfold recycle
  rw [foldl_append_eq_flatten, List.nil_append]

theorem recycle_length (deck : List Nat) (gs : List (List Nat)) :
    (recycle deck gs).1.length = (gs.map List.length).sum := by
  rw [recycle_eq]
  simp only [List.length_flatten, List.map_reverse, List.sum_reverse]

theorem mem_movesFor {cols : List (List Nat)} {active : List Bool} {mv : Move}
    (h : mv ∈ movesFor cols active) :
    mv.1 < 4 ∧ mv.2 ∈ legal_clear_moves_for_col (cols.getD mv.1 []) := by
  unfold movesFor at h
  simp only [List.mem_flatMap, List.mem_range] at h
  obtain ⟨sid, hsid, hm⟩ := h
  split at hm
  · simp only [List.mem_map] at hm
    obtain ⟨idxs, hi, rfl⟩ := hm
    exact ⟨hsid, hi⟩
  · simp at hm

theorem findTarget_some {active : List Bool} {next_idx t : Nat}
    (h : findTarget active next_idx = some t) : t < 4 := by
  obtain ⟨off, _hoff, hf⟩ := List.exists_of_findSome?_eq_some h
  dsimp only at hf
  split at hf
  · cases hf; omega
  · cases hf

theorem moveOrDeal_inr_conservation {pick : List Move → Move} {s s' : SimState}
    (hpick : ∀ l : List Move, l ≠ [] → pick l ∈ l)
    (h : moveOrDeal pick s = .inr s')
    (hcols : s.cols.length = 4) :
    cardTotal s' = cardTotal s ∧ s'.cols.length = 4 := by
  unfold moveOrDeal at h
  split at h
  · -- clear branch
    rename_i m rest heq
    cases h
    have hmem : pick (m :: rest) ∈ movesFor s.cols s.active := by
      rw [heq]; exact hpick _ (by simp)
    obtain ⟨hsid, hlegal⟩ := mem_movesFor hmem
    obtain ⟨h1, h2, h3, _⟩ := mem_legal_clear hlegal
    have hlt : (pick (m :: rest)).1 < s.cols.length := by omega
    obtain ⟨e1, e2⟩ := applyClear_lengths h1 h2 h3
    have hset := boardTotal_set s.cols (pick (m :: rest)).1
      (applyClear (s.cols.getD (pick (m :: rest)).1 []) (pick (m :: rest)).2).1 hlt
    simp only [cardTotal, SimState.mk.injEq, List.map_append, List.sum_append,
      List.map_cons, List.sum_cons, List.map_nil, List.sum_nil]
    constructor
    · omega
    · simpa using hcols
  · -- no clears: recycle / deadlock / deal
    split at h
    · -- recycle
      rename_i hcond
      cases h
      have hlen := recycle_length s.deck s.cleared_groups
      have hg : (recycle s.deck s.cleared_groups).2 = [] := by rw [recycle_eq]
      have hd0 : s.deck.length = 0 := by rw [hcond.1]; rfl
      refine ⟨?_, by simpa using hcols⟩
      simp only [cardTotal, hg, List.map_nil, List.sum_nil]
      omega
    · -- deck empty without recycle: deadlock, or deal
      split at h
      · -- deadlock overlay: inl contradicts inr
        simp at h
      · -- deal one card
        rename_i hne hd
        split at h
        · simp at h
        · rename_i target htarget
          cases h
          have hdeck : s.deck ≠ [] := hd
          have hpos : 0 < s.deck.length := List.length_pos.mpr hdeck
          have htlt : target < s.cols.length := by
            have := findTarget_some htarget
            omega
          have hset := boardTotal_set s.cols target
            ((s.cols.getD target []) ++ [s.deck.getLastD 0]) htlt
          simp only [cardTotal, List.length_dropLast, List.length_append,
            List.length_cons, List.length_nil] at hset ⊢
          exact ⟨by omega, by simpa using hcols⟩

theorem stepGame_inr_conservation {max_steps : Int} {detect_cycle : Bool}
    {pick : List Move → Move} {s s' : SimState}
    (hpick : ∀ l : List Move, l ≠ [] → pick l ∈ l)
    (hcols : s.cols.length = 4)
    (h : stepGame max_steps detect_cycle pick s = .inr s') :
    cardTotal s' = cardTotal s ∧ s'.cols.length = 4 := by
  simp only [stepGame] at h
  repeat' split at h
  all_goals try simp at h
  all_goals
    (have hres := moveOrDeal_inr_conservation hpick h hcols
     exact hres)

theorem reachable_cardTotal {max_steps : Int} {detect_cycle : Bool}
    {pick : List Move → Move} {shuffle : List Nat → List Nat} {mode : DeckMode}
    (hperm : ∀ l, List.Perm (shuffle l) l)
    (hpick : ∀ l : List Move, l ≠ [] → pick l ∈ l) :
    ∀ s, ReachableFrom max_steps detect_cycle pick (initState shuffle mode) s →
      cardTotal s = 40 ∧ s.cols.length = 4 := by
  intro s h
  induction h with
  | refl => exact cardTotal_initState shuffle hperm mode
  | tail _hab hbc ih =>
    obtain ⟨h1, h2⟩ := ih
    obtain ⟨h3, h4⟩ := stepGame_inr_conservation hpick h2 hbc
    exact ⟨h3.trans h1, h4⟩

/-! ## Characterization of the step function -/

theorem moveOrDeal_inl {pick : List Move → Move} {s : SimState} {o : Outcome}
    (h : moveOrDeal pick s = .inl o) :
    o.kind = .deadlock ∧ o.steps = s.steps := by
  unfold moveOrDeal at h
  split at h
  · simp at h
  · split at h
    · simp at h
    · split at h
      · cases h; exact ⟨rfl, rfl⟩
      · split at h
        · cases h; exact ⟨rfl, rfl⟩
        · simp at h

theorem moveOrDeal_inr_steps {pick : List Move → Move} {s s' : SimState}
    (h : moveOrDeal pick s = .inr s') : s'.steps = s.steps := by
  unfold moveOrDeal at h
  split at h
  · cases h; rfl
  · split at h
    · cases h; rfl
    · split at h
      · simp at h
      · split at h
        · simp at h
        · cases h; rfl

theorem moveOrDeal_inl_deck_empty {pick : List Move → Move} {s : SimState}
    {o : Outcome} (h : moveOrDeal pick s = .inl o) (hd : s.deck = []) :
    o.remaining_deck = 0 ∧ o.remaining_recycle_groups = 0 := by
  unfold moveOrDeal at h
  split at h
  · simp at h
  · split at h
    · simp at h
    · cases h; exact ⟨rfl, rfl⟩

theorem moveOrDeal_inl_iff {pick : List Move → Move} {s : SimState} :
    (∃ o, moveOrDeal pick s = .inl o) ↔
      movesFor s.cols s.active = [] ∧
        ((s.deck = [] ∧ s.cleared_groups = []) ∨
          (s.deck ≠ [] ∧ findTarget s.active s.next_idx = none)) := by
  unfold moveOrDeal
  split
  · rename_i m rest heq
    simp [heq]
  · rename_i heq
    split
    · rename_i hc
      constructor
      · rintro ⟨o, ho⟩; cases ho
      · rintro ⟨-, hcase⟩
        rcases hcase with ⟨-, hg⟩ | ⟨hd, -⟩
        · exact absurd hg hc.2
        · exact absurd hc.1 hd
    · rename_i hnc
      split
      · rename_i hd
        have hg : s.cleared_groups = [] := by
          by_cases hg : s.cleared_groups = []
          · exact hg
          · exact absurd ⟨hd, hg⟩ hnc
        constructor
        · intro _
          exact ⟨heq, Or.inl ⟨hd, hg⟩⟩
        · intro _
          exact ⟨_, rfl⟩
      · rename_i hd
        split
        · rename_i hft
          constructor
          · intro _
            exact ⟨heq, Or.inr ⟨hd, hft⟩⟩
          · intro _
            exact ⟨_, rfl⟩
        · rename_i target hft
          constructor
          · rintro ⟨o, ho⟩; cases ho
          · rintro ⟨-, hcase⟩
            rcases hcase with ⟨hnil, -⟩ | ⟨-, hnone⟩
            · exact absurd hnil hd
            · rw [hft] at hnone; cases hnone

theorem findTarget_none_iff {active : List Bool} {next_idx : Nat} :
    findTarget active next_idx = none ↔
      ∀ i, i < 4 → active.getD i false = false := by
  unfold findTarget
  rw [List.findSome?_eq_none_iff]
  constructor
  · intro h i hi
    obtain ⟨off, hoff, he⟩ : ∃ off, off < 4 ∧ (next_idx + off) % 4 = i :=
      ⟨(i + 4 - next_idx % 4) % 4, by omega, by omega⟩
    have hx := h off (List.mem_range.mpr hoff)
    dsimp only at hx
    rw [he] at hx
    by_cases hb : active.getD i false = true
    · rw [if_pos hb] at hx; cases hx
    · simpa using hb
  · intro h off hoff
    dsimp only
    rw [h ((next_idx + off) % 4) (Nat.mod_lt _ (by omega))]
    simp

theorem stepGame_inl_steps {max_steps : Int} {detect_cycle : Bool}
    {pick : List Move → Move} {s : SimState} {o : Outcome}
    (h : stepGame max_steps detect_cycle pick s = .inl o) :
    o.steps = s.steps + 1 ∧
      ((o.kind = .timeout ∧ max_steps < (s.steps + 1 : Nat)) ∨
        (((s.steps + 1 : Nat) : Int) ≤ max_steps ∧ o.kind ≠ .timeout)) := by
  simp only [stepGame] at h
  split at h
  · rename_i hgt
    cases h
    exact ⟨rfl, Or.inl ⟨rfl, by exact_mod_cast hgt⟩⟩
  · rename_i hngt
    have hle : ((s.steps + 1 : Nat) : Int) ≤ max_steps := by
      push_cast at hngt ⊢
      omega
    split at h
    · cases h
      exact ⟨rfl, Or.inr ⟨hle, by simp [mkOutcome]⟩⟩
    · split at h <;>
        (split at h
         · cases h; exact ⟨rfl, Or.inr ⟨hle, by simp⟩⟩
         · split at h
           · cases h; exact ⟨rfl, Or.inr ⟨hle, by simp⟩⟩
           · obtain ⟨hk, hs⟩ := moveOrDeal_inl h
             exact ⟨hs, Or.inr ⟨hle, by rw [hk]; decide⟩⟩)

theorem stepGame_inr_steps {max_steps : Int} {detect_cycle : Bool}
    {pick : List Move → Move} {s s' : SimState}
    (h : stepGame max_steps detect_cycle pick s = .inr s') :
    s'.steps = s.steps + 1 ∧ ((s.steps + 1 : Nat) : Int) ≤ max_steps := by
  simp only [stepGame] at h
  split at h
  · simp at h
  · rename_i hngt
    have hle : ((s.steps + 1 : Nat) : Int) ≤ max_steps := by
      push_cast at hngt ⊢
      omega
    refine ⟨?_, hle⟩
    split at h
    · simp at h
    · split at h <;>
        (split at h
         · simp at h
         · split at h
           · simp at h
           · exact moveOrDeal_inr_steps h)

theorem stepGame_lucky3 {max_steps : Int} {detect_cycle : Bool}
    {pick : List Move → Move} {s : SimState} {o : Outcome}
    (h : stepGame max_steps detect_cycle pick s = .inl o)
    (hk : o.kind = .lucky3) :
    boardTotal s.cols = 1 ∧ s.cols.flatten.head? = some 3 := by
  simp only [stepGame] at h
  split at h
  · cases h; simp [mkOutcome] at hk
  · split at h
    · cases h; simp [mkOutcome] at hk
    · split at h <;>
        (split at h
         · cases h; simp at hk
         · split at h
           · rename_i hcond
             cases h
             exact hcond
           · obtain ⟨hkd, -⟩ := moveOrDeal_inl h
             rw [hk] at hkd
             exact absurd hkd (by decide))

theorem stepGame_not_lucky3 {max_steps : Int} {detect_cycle : Bool}
    {pick : List Move → Move} {s : SimState} {o : Outcome}
    (h1 : boardTotal s.cols = 1) (h2 : s.cols.flatten.head? ≠ some 3)
    (h : stepGame max_steps detect_cycle pick s = .inl o) :
    o.kind ≠ .lucky3 := by
  simp only [stepGame] at h
  split at h
  · cases h; simp [mkOutcome]
  · split at h
    · cases h; simp [mkOutcome]
    · split at h <;>
        (split at h
         · cases h; simp
         · split at h
           · rename_i hcond
             exact absurd hcond.2 h2
           · obtain ⟨hkd, -⟩ := moveOrDeal_inl h
             rw [hkd]; decide)

theorem runLoop_lucky3 {max_steps : Int} {detect_cycle : Bool}
    {pick : List Move → Move} :
    ∀ (fuel : Nat) (s : SimState),
      (runLoop max_steps detect_cycle pick fuel s).kind = .lucky3 →
      ∃ t, Relation.ReflTransGen (stepsTo max_steps detect_cycle pick) s t ∧
        boardTotal t.cols = 1 ∧ t.cols.flatten.head? = some 3 := by
  intro fuel
  induction fuel with
  | zero =>
    intro s h
    simp [runLoop, mkOutcome] at h
  | succ fuel ih =>
    intro s h
    simp only [runLoop] at h
    split at h
    · rename_i o heq
      exact ⟨s, Relation.ReflTransGen.refl, stepGame_lucky3 heq h⟩
    · rename_i s' heq
      obtain ⟨t, ht, h1, h3⟩ := ih s' h
      exact ⟨t, Relation.ReflTransGen.head heq ht, h1, h3⟩

theorem runLoop_steps_bound (max_steps : Int) (detect_cycle : Bool)
    (pick : List Move → Move) :
    ∀ (fuel : Nat) (s : SimState),
      s.steps ≤ max_steps.toNat → max_steps.toNat + 1 ≤ s.steps + fuel →
      ((runLoop max_steps detect_cycle pick fuel s).kind = .timeout →
        (runLoop max_steps detect_cycle pick fuel s).steps = max_steps.toNat + 1) ∧
      ((runLoop max_steps detect_cycle pick fuel s).kind ≠ .timeout →
        (((runLoop max_steps detect_cycle pick fuel s).steps : Nat) : Int) ≤ max_steps) := by
  intro fuel
  induction fuel with
  | zero =>
    intro s hlo hhi
    omega
  | succ fuel ih =>
    intro s hlo hhi
    simp only [runLoop]
    split
    · rename_i o heq
      obtain ⟨hsteps, hcase⟩ := stepGame_inl_steps heq
      rcases hcase with ⟨hk, hgt⟩ | ⟨hle, hk⟩
      · constructor
        · intro _
          rw [hsteps]
          omega
        · intro hnk
          exact absurd hk hnk
      · constructor
        · intro hkk
          exact absurd hkk hk
        · intro _
          rw [hsteps]
          exact hle
    · rename_i s' heq
      obtain ⟨hsteps, hle⟩ := stepGame_inr_steps heq
      exact ih s' (by omega) (by omega)

theorem runLoop_fuel_stable (max_steps : Int) (detect_cycle : Bool)
    (pick : List Move → Move) :
    ∀ (fuel extra : Nat) (s : SimState),
      max_steps.toNat + 1 ≤ s.steps + fuel →
      runLoop max_steps detect_cycle pick (fuel + extra) s =
        runLoop max_steps detect_cycle pick fuel s := by
  intro fuel
  induction fuel with
  | zero =>
    intro extra s hhi
    have hgt : ((s.steps + 1 : Nat) : Int) > max_steps := by
      have h1 := Int.self_le_toNat max_steps
      push_cast at h1 ⊢
      omega
    cases extra with
    | zero => rfl
    | succ e =>
      have hstep : stepGame max_steps detect_cycle pick s =
          .inl (mkOutcome .timeout { s with steps := s.steps + 1 }) := by
        simp only [stepGame]
        rw [if_pos hgt]
      rw [Nat.zero_add]
      simp only [runLoop, hstep]
  | succ fuel ih =>
    intro extra s hhi
    have hrw : fuel + 1 + extra = (fuel + extra) + 1 := by omega
    rw [hrw]
    simp only [runLoop]
    split
    · rfl
    · rename_i s' heq
      obtain ⟨hsteps, -⟩ := stepGame_inr_steps heq
      exact ih extra s' (by omega)

theorem runLoop_kind_of_ne_timeout {max_steps : Int} {detect_cycle : Bool}
    {pick : List Move → Move} :
    ∀ (fuel : Nat) (s : SimState) (o : Outcome),
      runLoop max_steps detect_cycle pick fuel s = o → o.kind ≠ .timeout →
      ∃ t, Relation.ReflTransGen (stepsTo max_steps detect_cycle pick) s t ∧
        stepGame max_steps detect_cycle pick t = .inl o := by
  intro fuel
  induction fuel with
  | zero =>
    intro s o h hk
    rw [← h] at hk
    simp [runLoop, mkOutcome] at hk
  | succ fuel ih =>
    intro s o h hk
    simp only [runLoop] at h
    split at h
    · rename_i o' heq
      cases h
      exact ⟨s, Relation.ReflTransGen.refl, heq⟩
    · rename_i s' heq
      obtain ⟨t, ht, hstep⟩ := ih s' o h hk
      exact ⟨t, Relation.ReflTransGen.head heq ht, hstep⟩

theorem stepGame_deadlock_iff {max_steps : Int} {detect_cycle : Bool}
    {pick : List Move → Move} {s : SimState} :
    (∃ o, stepGame max_steps detect_cycle pick s = .inl o ∧ o.kind = .deadlock) ↔
      (((s.steps + 1 : Nat) : Int) ≤ max_steps ∧
        ¬(detect_cycle = true ∧ stateKey s ∈ s.seen) ∧
        boardTotal s.cols ≠ 0 ∧
        ¬(boardTotal s.cols = 1 ∧ s.cols.flatten.head? = some 3) ∧
        movesFor s.cols s.active = [] ∧
        ((s.deck = [] ∧ s.cleared_groups = []) ∨
          (s.deck ≠ [] ∧ ∀ i, i < 4 → s.active.getD i false = false))) := by
  constructor
  · rintro ⟨o, h, hk⟩
    simp only [stepGame] at h
    split at h
    · cases h; simp [mkOutcome] at hk
    · rename_i hngt
      have hle : ((s.steps + 1 : Nat) : Int) ≤ max_steps := by
        push_cast at hngt ⊢
        omega
      split at h
      · cases h; simp [mkOutcome] at hk
      · rename_i hnc
        split at h <;>
          (split at h
           · cases h; simp at hk
           · split at h
             · cases h; simp at hk
             · rename_i hnz hnl
               obtain ⟨hmv, hcase⟩ := moveOrDeal_inl_iff.mp ⟨o, h⟩
               refine ⟨hle, hnc, fun hz => hnz ?_, fun hl => hnl ?_, hmv, ?_⟩
               · exact hz
               · exact hl
               · rcases hcase with ⟨hd, hg⟩ | ⟨hd, hft⟩
                 · exact Or.inl ⟨hd, hg⟩
                 · exact Or.inr ⟨hd, findTarget_none_iff.mp hft⟩)
  · rintro ⟨hle, hnc, hnz, hnl, hmv, hcase⟩
    have hngt : ¬(((s.steps + 1 : Nat) : Int) > max_steps) := by
      push_cast at hle ⊢
      omega
    have hdisj : (s.deck = [] ∧ s.cleared_groups = []) ∨
        (s.deck ≠ [] ∧ findTarget s.active s.next_idx = none) := by
      rcases hcase with ⟨hd, hg⟩ | ⟨hd, hall⟩
      · exact Or.inl ⟨hd, hg⟩
      · exact Or.inr ⟨hd, findTarget_none_iff.mpr hall⟩
    cases detect_cycle with
    | false =>
      have hmod : ∃ o, moveOrDeal pick { s with steps := s.steps + 1 } = .inl o :=
        moveOrDeal_inl_iff.mpr ⟨hmv, hdisj⟩
      obtain ⟨o, ho⟩ := hmod
      refine ⟨o, ?_, (moveOrDeal_inl ho).1⟩
      simp only [stepGame, Bool.false_eq_true, false_and, if_false]
      rw [if_neg hngt, if_neg hnz, if_neg hnl]
      exact ho
    | true =>
      have hmod : ∃ o, moveOrDeal pick
          { s with
            steps := s.steps + 1
            seen := stateKey ({ s with steps := s.steps + 1 }) :: s.seen } = .inl o :=
        moveOrDeal_inl_iff.mpr ⟨hmv, hdisj⟩
      obtain ⟨o, ho⟩ := hmod
      refine ⟨o, ?_, (moveOrDeal_inl ho).1⟩
      have hmem : ¬(stateKey ({ s with steps := s.steps + 1 }) ∈ s.seen) :=
        fun hm => hnc ⟨rfl, hm⟩
      simp only [stepGame, eq_self_iff_true, true_and, if_true]
      rw [if_neg hngt, if_neg hmem, if_neg hnz, if_neg hnl]
      exact ho

/-! ## Deck builder and policy helpers -/

theorem build_deck_perm (shuffle : List Nat → List Nat)
    (hperm : ∀ l, List.Perm (shuffle l) l) (mode : DeckMode) :
    List.Perm (build_deck shuffle mode) baseValues := by
  cases mode with
  | fullRandom => exact hperm baseValues
  | forced3 =>
    have h3 : (3 : Nat) ∈ baseValues := by decide
    have h1 : List.Perm (3 :: shuffle (baseValues.erase 3)) (3 :: baseValues.erase 3) :=
      List.Perm.cons 3 (hperm _)
    exact h1.trans (List.perm_cons_erase h3).symm

theorem baseValues_count {v : Nat} (h1 : 1 ≤ v) (h10 : v ≤ 10) :
    baseValues.count v = 4 := by
  interval_cases v <;> decide

theorem pickHead_mem : ∀ l : List Move, l ≠ [] → pickHead l ∈ l := by
  intro l hl
  cases l with
  | nil => exact absurd rfl hl
  | cons a t => exact List.mem_cons_self _ _

/-! ## Seed-pool search -/

theorem buildPoolLoop_le (classify : Nat → OutcomeKind) (stream : Nat → Nat)
    (target_lucky3 target_zero : Nat) :
    ∀ (r attempts : Nat) (seen lucky3_seeds zero_seeds : List Nat),
      lucky3_seeds.length ≤ target_lucky3 → zero_seeds.length ≤ target_zero →
      (buildPoolLoop classify stream target_lucky3 target_zero r attempts seen
        lucky3_seeds zero_seeds).2.1.length ≤ target_lucky3 ∧
      (buildPoolLoop classify stream target_lucky3 target_zero r attempts seen
        lucky3_seeds zero_seeds).2.2.length ≤ target_zero := by
  intro r
  induction r with
  | zero =>
    intro attempts seen lucky3_seeds zero_seeds h1 h2
    exact ⟨h1, h2⟩
  | succ r ih =>
    intro attempts seen lucky3_seeds zero_seeds h1 h2
    simp only [buildPoolLoop]
    split
    · split
      · exact ih _ _ _ _ h1 h2
      · split
        · rename_i hcl
          obtain ⟨-, hlt⟩ := hcl
          refine ih _ _ _ _ ?_ h2
          simp only [List.length_append, List.length_cons, List.length_nil]
          omega
        · split
          · rename_i hcz
            obtain ⟨-, hlt⟩ := hcz
            refine ih _ _ _ _ h1 ?_
            simp only [List.length_append, List.length_cons, List.length_nil]
            omega
          · exact ih _ _ _ _ h1 h2
    · exact ⟨h1, h2⟩

/-! ## The claims -/

/-- C1: Card conservation.  After the deck is built, the initial state (built
deck plus opening deal) holds 40 cards in total; every loop transition (clear,
recycle, deal) preserves the sum `|deck| + Σ|column| + Σ|un-recycled cleared
group|`; hence every state reachable during one run of `simulate_game` holds
exactly 40 cards. -/
theorem C1_card_conservation (shuffle : List Nat → List Nat)
    (pick : List Move → Move) (mode : DeckMode) (max_steps : Int)
    (detect_cycle : Bool)
    (hperm : ∀ l, List.Perm (shuffle l) l)
    (hpick : ∀ l : List Move, l ≠ [] → pick l ∈ l) :
    cardTotal (initState shuffle mode) = 40 ∧
    (∀ s s', s.cols.length = 4 →
      stepGame max_steps detect_cycle pick s = .inr s' →
      cardTotal s' = cardTotal s ∧ s'.cols.length = 4) ∧
    (∀ s, ReachableFrom max_steps detect_cycle pick (initState shuffle mode) s →
      cardTotal s = 40) := by
  refine ⟨(cardTotal_initState shuffle hperm mode).1, ?_, ?_⟩
  · intro s s' hc h
    exact stepGame_inr_conservation hpick hc h
  · intro s h
    exact (reachable_cardTotal hperm hpick s h).1

/-- C1 witness: a concrete initial state holds 40 cards. -/
theorem C1_card_conservation_witness : cardTotal (initState id .forced3) = 40 :=
  (C1_card_conservation id pickHead .forced3 10000 true
    (fun l => List.Perm.refl l) pickHead_mem).1

/-- C2: The deterministic policy selects the first legal move found by
scanning columns 0,1,2,3 in order, evaluating candidates within a column in
the fixed order head1tail2, head2tail1, tail3 (the spec-side scan
`specFirstClear` transcribes that order); the deterministic choice
`pickHead` takes exactly the head of the move list. -/
theorem C2_deterministic_first_move (cols : List (List Nat)) (active : List Bool) :
    (movesFor cols active).head? = specFirstClear cols active ∧
    (∀ m rest, movesFor cols active = m :: rest →
      pickHead (movesFor cols active) = m) := by
  refine ⟨head?_movesFor cols active, ?_⟩
  intro m rest h
  rw [h]
  rfl

/-- C2 witness: on a concrete board the deterministic policy picks the
head1tail2 clear of column 0. -/
theorem C2_deterministic_first_move_witness :
    pickHead (movesFor [[2, 3, 4], [], [], []] [true, true, true, true]) =
      (0, 0, 1, 2) :=
  (C2_deterministic_first_move [[2, 3, 4], [], [], []]
    [true, true, true, true]).2 (0, 0, 1, 2) [] (by decide)

/-- C3: Every index triple returned by `legal_clear_moves_for_col` is strictly
ascending, within the column's bounds, and its value sum is 9, 19 or 29;
columns shorter than 3 yield no candidates; a column of length exactly 3
yields at most one candidate (all three templates coincide and duplicates are
evaluated once). -/
theorem C3_clear_rule_evaluator (col : List Nat) :
    (∀ t ∈ legal_clear_moves_for_col col,
      t.1 < t.2.1 ∧ t.2.1 < t.2.2 ∧ t.2.2 < col.length ∧
        sumTriple col t ∈ TARGET_SUMS) ∧
    (col.length < 3 → legal_clear_moves_for_col col = []) ∧
    (col.length = 3 → (legal_clear_moves_for_col col).length ≤ 1) := by
  refine ⟨fun t ht => mem_legal_clear ht, fun h => legal_clear_of_short h, fun h => ?_⟩
  rcases legal_clear_length_three h with he | he <;> rw [he] <;> decide

/-- C3 witness: concrete instances of all three parts. -/
theorem C3_clear_rule_evaluator_witness :
    sumTriple [2, 3, 4] (0, 1, 2) ∈ TARGET_SUMS ∧
      legal_clear_moves_for_col [7] = [] ∧
      (legal_clear_moves_for_col [2, 3, 4]).length ≤ 1 :=
  ⟨((C3_clear_rule_evaluator [2, 3, 4]).1 (0, 1, 2) (by decide)).2.2.2,
   (C3_clear_rule_evaluator [7]).2.1 (by decide),
   (C3_clear_rule_evaluator [2, 3, 4]).2.2 (by decide)⟩

/-- C4: Immediately after `recycle`, the deck is the concatenation of the
previously cleared groups in reverse chronological order (most recent first),
the cleared-group history is empty, and the deck length equals the total
number of cards in those groups. -/
theorem C4_recycle_correctness (deck : List Nat) (cleared_groups : List (List Nat)) :
    (recycle deck cleared_groups).1 = cleared_groups.reverse.flatten ∧
    (recycle deck cleared_groups).2 = [] ∧
    (recycle deck cleared_groups).1.length = (cleared_groups.map List.length).sum := by
  have h := recycle_eq deck cleared_groups
  exact ⟨by rw [h], by rw [h], recycle_length deck cleared_groups⟩

/-- C5: `simulate_game` classifies an outcome as lucky3 only from a state
whose board holds exactly one card of value 3; a step from a state whose
board total is 1 with a lone card other than 3 never terminates as lucky3
(it continues, or ends with another kind). -/
theorem C5_lucky3_boundary (shuffle : List Nat → List Nat)
    (pick : List Move → Move) (mode : DeckMode) (max_steps : Int)
    (detect_cycle : Bool) :
    ((simulate_game shuffle pick mode max_steps detect_cycle).kind = .lucky3 →
      ∃ t, ReachableFrom max_steps detect_cycle pick (initState shuffle mode) t ∧
        boardTotal t.cols = 1 ∧ t.cols.flatten.head? = some 3) ∧
    (∀ s o, stepGame max_steps detect_cycle pick s = .inl o →
      o.kind = .lucky3 →
      boardTotal s.cols = 1 ∧ s.cols.flatten.head? = some 3) ∧
    (∀ s o, boardTotal s.cols = 1 → s.cols.flatten.head? ≠ some 3 →
      stepGame max_steps detect_cycle pick s = .inl o → o.kind ≠ .lucky3) := by
  refine ⟨?_, ?_, ?_⟩
  · intro h
    exact runLoop_lucky3 _ _ h
  · intro s o h hk
    exact stepGame_lucky3 h hk
  · intro s o h1 h2 h
    exact stepGame_not_lucky3 h1 h2 h

/-- C5 witness: a concrete one-card-of-3 state steps to a lucky3 outcome, and
the theorem recovers the board facts from that step. -/
theorem C5_lucky3_boundary_witness :
    boardTotal (SimState.mk [5] [[3], [], [], []] [true, true, true, true]
      0 [] 0 0 0 0 []).cols = 1 :=
  ((C5_lucky3_boundary id pickHead .forced3 10 false).2.1
    (SimState.mk [5] [[3], [], [], []] [true, true, true, true] 0 [] 0 0 0 0 [])
    ⟨.lucky3, 1, 0, 0, 0, 1, 1, 0⟩ (by decide) (by decide)).1

/-- C6: A step returns a deadlock outcome exactly when no terminal check
(timeout, cycle, zero-clear, lucky3) fires, no legal clear exists in any
active column, and either the deck and the cleared-group history are both
empty, or the deck is non-empty but no active column remains to receive a
deal; when the deck is empty the returned outcome records 0 remaining deck
cards and 0 un-recycled cleared groups. -/
theorem C6_deadlock_condition (max_steps : Int) (detect_cycle : Bool)
    (pick : List Move → Move) (s : SimState) :
    ((∃ o, stepGame max_steps detect_cycle pick s = .inl o ∧
        o.kind = .deadlock) ↔
      (((s.steps + 1 : Nat) : Int) ≤ max_steps ∧
        ¬(detect_cycle = true ∧ stateKey s ∈ s.seen) ∧
        boardTotal s.cols ≠ 0 ∧
        ¬(boardTotal s.cols = 1 ∧ s.cols.flatten.head? = some 3) ∧
        movesFor s.cols s.active = [] ∧
        ((s.deck = [] ∧ s.cleared_groups = []) ∨
          (s.deck ≠ [] ∧ ∀ i, i < 4 → s.active.getD i false = false)))) ∧
    (∀ o, stepGame max_steps detect_cycle pick s = .inl o →
      o.kind = .deadlock → s.deck = [] →
      o.remaining_deck = 0 ∧ o.remaining_recycle_groups = 0) ∧
    (∀ (shuffle : List Nat → List Nat) (mode : DeckMode),
      (simulate_game shuffle pick mode max_steps detect_cycle).kind = .deadlock →
      ∃ t, ReachableFrom max_steps detect_cycle pick (initState shuffle mode) t ∧
        movesFor t.cols t.active = [] ∧
        ((t.deck = [] ∧ t.cleared_groups = []) ∨
          (t.deck ≠ [] ∧ ∀ i, i < 4 → t.active.getD i false = false))) := by
  refine ⟨stepGame_deadlock_iff, ?_, ?_⟩
  case refine_2 =>
    intro shuffle mode h
    obtain ⟨t, ht, hstep⟩ := runLoop_kind_of_ne_timeout
      (max_steps.toNat + 1) (initState shuffle mode)
      (simulate_game shuffle pick mode max_steps detect_cycle) rfl
      (by rw [h]; decide)
    obtain ⟨-, -, -, -, hmv, hcase⟩ :=
      stepGame_deadlock_iff.mp ⟨_, hstep, h⟩
    exact ⟨t, ht, hmv, hcase⟩
  intro o h hk hd
  simp only [stepGame] at h
  split at h
  · cases h; simp [mkOutcome] at hk
  · split at h
    · cases h; simp [mkOutcome] at hk
    · split at h <;>
        (split at h
         · cases h; simp at hk
         · split at h
           · cases h; simp at hk
           · exact moveOrDeal_inl_deck_empty h hd)

/-- C6 witness: a concrete deadlocked state (empty deck, empty history, two
single-card columns) steps to a deadlock outcome. -/
theorem C6_deadlock_condition_witness :
    ∃ o, stepGame 10 false pickHead
      (SimState.mk [] [[1], [1], [], []] [true, true, true, true] 0 [] 0 0 0 0 []) =
        .inl o ∧ o.kind = .deadlock :=
  (C6_deadlock_condition 10 false pickHead
    (SimState.mk [] [[1], [1], [], []] [true, true, true, true] 0 [] 0 0 0 0 [])).1.mpr
    ⟨by decide, by decide, by decide, by decide, by decide,
      Or.inl ⟨rfl, rfl⟩⟩

/-- C7: For every permutation-respecting random source and either mode,
`build_deck` returns 40 card values with 4 copies of each value 1..10; in
forced3 mode the card at index 0 (drawn last, since drawing pops the tail)
has value 3. -/
theorem C7_build_deck (shuffle : List Nat → List Nat) (mode : DeckMode)
    (hperm : ∀ l, List.Perm (shuffle l) l) :
    (build_deck shuffle mode).length = 40 ∧
    (∀ v, 1 ≤ v → v ≤ 10 → (build_deck shuffle mode).count v = 4) ∧
    (mode = .forced3 → (build_deck shuffle mode).head? = some 3) := by
  have hp := build_deck_perm shuffle hperm mode
  refine ⟨?_, ?_, ?_⟩
  · rw [hp.length_eq]
    decide
  · intro v h1 h10
    rw [hp.count_eq]
    exact baseValues_count h1 h10
  · intro hm
    subst hm
    rfl

/-- C7 witness: the identity shuffle in forced3 mode. -/
theorem C7_build_deck_witness :
    (build_deck id .forced3).length = 40 ∧
      (build_deck id .forced3).count 5 = 4 ∧
      (build_deck id .forced3).head? = some 3 :=
  ⟨(C7_build_deck id .forced3 (fun l => List.Perm.refl l)).1,
   (C7_build_deck id .forced3 (fun l => List.Perm.refl l)).2.1 5
     (by decide) (by decide),
   (C7_build_deck id .forced3 (fun l => List.Perm.refl l)).2.2 rfl⟩

/-- C8: Determinism.  With equal injected random sources (shuffle function
and move chooser) and equal mode, step cap and cycle toggle, two runs of
`simulate_game` return identical outcome records: same kind and same step,
deal, clear, recycle, remaining-board, remaining-deck and remaining-group
counts. -/
theorem C8_determinism (shuffle1 shuffle2 : List Nat → List Nat)
    (pick1 pick2 : List Move → Move) (mode : DeckMode) (max_steps : Int)
    (detect_cycle : Bool) (hs : shuffle1 = shuffle2) (hp : pick1 = pick2) :
    (simulate_game shuffle1 pick1 mode max_steps detect_cycle).kind =
      (simulate_game shuffle2 pick2 mode max_steps detect_cycle).kind ∧
    (simulate_game shuffle1 pick1 mode max_steps detect_cycle).steps =
      (simulate_game shuffle2 pick2 mode max_steps detect_cycle).steps ∧
    (simulate_game shuffle1 pick1 mode max_steps detect_cycle).deals =
      (simulate_game shuffle2 pick2 mode max_steps detect_cycle).deals ∧
    (simulate_game shuffle1 pick1 mode max_steps detect_cycle).clears =
      (simulate_game shuffle2 pick2 mode max_steps detect_cycle).clears ∧
    (simulate_game shuffle1 pick1 mode max_steps detect_cycle).recycles =
      (simulate_game shuffle2 pick2 mode max_steps detect_cycle).recycles ∧
    (simulate_game shuffle1 pick1 mode max_steps detect_cycle).remaining_board =
      (simulate_game shuffle2 pick2 mode max_steps detect_cycle).remaining_board ∧
    (simulate_game shuffle1 pick1 mode max_steps detect_cycle).remaining_deck =
      (simulate_game shuffle2 pick2 mode max_steps detect_cycle).remaining_deck ∧
    (simulate_game shuffle1 pick1 mode max_steps detect_cycle).remaining_recycle_groups =
      (simulate_game shuffle2 pick2 mode max_steps detect_cycle).remaining_recycle_groups ∧
    simulate_game shuffle1 pick1 mode max_steps detect_cycle =
      simulate_game shuffle2 pick2 mode max_steps detect_cycle := by
  subst hs
  subst hp
  exact ⟨rfl, rfl, rfl, rfl, rfl, rfl, rfl, rfl, rfl⟩

/-- C8 witness: a concrete pair of identically seeded runs. -/
theorem C8_determinism_witness :
    simulate_game id pickHead .forced3 0 false =
      simulate_game id pickHead .forced3 0 false :=
  (C8_determinism id id pickHead pickHead .forced3 0 false rfl rfl).2.2.2.2.2.2.2.2

/-- C9: `build_pool` fails with the partial progress (counts obtained so far
against their targets) when the bounded seed search cannot meet its targets,
and returns normally only when both targets are met exactly. -/
theorem C9_seed_pool_failure (classify : Nat → OutcomeKind) (stream : Nat → Nat)
    (target_lucky3 target_zero seed_limit : Nat) :
    (∀ e, build_pool classify stream target_lucky3 target_zero seed_limit =
        .error e →
      (e.gotLucky3 < target_lucky3 ∨ e.gotZero < target_zero) ∧
        e.targetLucky3 = target_lucky3 ∧ e.targetZero = target_zero) ∧
    (∀ lucky3_seeds zero_seeds,
      build_pool classify stream target_lucky3 target_zero seed_limit =
        .ok (lucky3_seeds, zero_seeds) →
      lucky3_seeds.length = target_lucky3 ∧
        zero_seeds.length = target_zero) := by
  constructor
  · intro e he
    simp only [build_pool] at he
    split at he
    · rename_i hlt
      cases he
      exact ⟨hlt, rfl, rfl⟩
    · cases he
  · intro lucky3_seeds zero_seeds hok
    simp only [build_pool] at hok
    split at hok
    · cases hok
    · rename_i hge
      cases hok
      obtain ⟨hl1, hl2⟩ := buildPoolLoop_le classify stream target_lucky3
        target_zero seed_limit 0 [] [] [] (Nat.zero_le _) (Nat.zero_le _)
      push_neg at hge
      exact ⟨by omega, by omega⟩

/-- C9 witness: a search that finds nothing fails with its partial counts; a
search with zero targets returns the empty pool. -/
theorem C9_seed_pool_failure_witness :
    (((0 : Nat) < 1 ∨ (0 : Nat) < 0) ∧ (1 : Nat) = 1 ∧ (0 : Nat) = 0) ∧
      ([] : List Nat).length = 0 ∧ ([] : List Nat).length = 0 :=
  ⟨(C9_seed_pool_failure (fun _ => .deadlock) id 1 0 2).1
      ⟨2, 0, 1, 0, 0⟩ (by rfl),
   (C9_seed_pool_failure (fun _ => .deadlock) id 0 0 2).2 [] [] (by rfl)⟩

/-- C10 as stated is false for negative step caps: with `max_steps = -1` the
first iteration already exceeds the cap, and the timeout outcome reports
`steps = 1`, not `max_steps + 1 = 0`. -/
theorem C10_timeout_steps_counterexample :
    (simulate_game id pickHead .forced3 (-1) false).kind = .timeout ∧
      (simulate_game id pickHead .forced3 (-1) false).steps = 1 ∧
      (1 : Int) ≠ (-1 : Int) + 1 :=
  ⟨by decide, by decide, by decide⟩

/-- C10 (amended): for every input, `simulate_game` terminates and returns
one outcome within `max(max_steps, 0) + 1` loop iterations (extra fuel never
changes the result); a timeout outcome reports
`steps = max(max_steps, 0) + 1`, and every other outcome reports
`steps ≤ max_steps`. -/
theorem C10_termination_amended (shuffle : List Nat → List Nat)
    (pick : List Move → Move) (mode : DeckMode) (max_steps : Int)
    (detect_cycle : Bool) :
    ((simulate_game shuffle pick mode max_steps detect_cycle).kind = .timeout →
      (simulate_game shuffle pick mode max_steps detect_cycle).steps =
        max_steps.toNat + 1) ∧
    ((simulate_game shuffle pick mode max_steps detect_cycle).kind ≠ .timeout →
      (((simulate_game shuffle pick mode max_steps detect_cycle).steps : Nat) : Int) ≤
        max_steps) ∧
    (∀ extra, runLoop max_steps detect_cycle pick (max_steps.toNat + 1 + extra)
        (initState shuffle mode) =
      simulate_game shuffle pick mode max_steps detect_cycle) := by
  have h0 : (initState shuffle mode).steps = 0 := rfl
  have hb := runLoop_steps_bound max_steps detect_cycle pick
    (max_steps.toNat + 1) (initState shuffle mode)
    (by rw [h0]; exact Nat.zero_le _) (by rw [h0]; omega)
  refine ⟨hb.1, hb.2, ?_⟩
  intro extra
  exact runLoop_fuel_stable max_steps detect_cycle pick
    (max_steps.toNat + 1) extra (initState shuffle mode) (by rw [h0]; omega)

/-- C10 witness: with step cap 0 the run times out on the first iteration and
reports `steps = toNat 0 + 1 = 1`. -/
theorem C10_termination_amended_witness :
    (simulate_game id pickHead .forced3 0 false).kind = .timeout ∧
      (simulate_game id pickHead .forced3 0 false).steps = (0 : Int).toNat + 1 :=
  ⟨by decide,
   (C10_termination_amended id pickHead .forced3 0 false).1 (by decide)⟩

end Lucky3
